import Mathlib

/-!
Verification of the queue engine of the redis-ms1 repository
(src/message/message.service.ts over src/redis/redis.service.ts).

The Redis store is modelled explicitly: each priority tier is a list of
stored entries (head = most recently LPUSHed), and each Redis set is a
duplicate-free list.  Stored entries are either the serialization of a
valid message (which round-trips through parseMessageSafely) or a
malformed blob that fails to parse.  Each service method of
MessageService becomes a pure function on this state; the values that
the TypeScript code draws from the environment (Date.now-based ids and
ISO timestamps) are passed in as explicit arguments.
-/

namespace RedisMs

/-- Priority levels, in the declaration order of the MessagePriority enum
(message.interface.ts): low, normal, high, urgent. -/
inductive MessagePriority where
  | low
  | normal
  | high
  | urgent
  deriving DecidableEq, Repr

/-- Lifecycle statuses from the MessageStatus enum. -/
inductive MessageStatus where
  | pending
  | processing
  | completed
  | failed
  deriving DecidableEq, Repr

/-- The MessageData record of message.interface.ts.  Optional TypeScript
fields become Option; absent and undefined coincide. -/
structure MessageData where
  id : String
  content : String
  timestamp : String
  priority : MessagePriority
  status : MessageStatus
  userId : Option String := none
  username : Option String := none
  retryCount : Option Nat := none
  processingStartTime : Option String := none
  completedTime : Option String := none
  error : Option String := none
  deriving DecidableEq, Repr

/-- A string stored in Redis: either JSON.stringify of a MessageData
(which parses back to exactly that record via JSON.parse plus the
isMessageData type guard) or any other string, which fails the
parse/guard.  JSON.stringify is injective on MessageData records, so
entry equality coincides with equality of the stored strings. -/
inductive Stored where
  | valid (m : MessageData)
  | malformed (s : String)
  deriving DecidableEq, Repr

/-- parseMessageSafely from message.service.ts: JSON.parse followed by
the isMessageData guard; returns null (none) on any failure. -/
def parseMessageSafely : Stored → Option MessageData
  | .valid m => some m
  | .malformed _ => none

/-! ### Content fingerprint: Buffer.from(content).toString('base64')

Buffer.from(content) yields the UTF-8 bytes of the content; toString
with the base64 codec yields standard padded base64.  Both steps are
implemented here; decoders below witness their injectivity. -/

/-- UTF-8 encoding of a single unicode scalar value, as a list of byte
values. -/
def utf8Bytes (c : Char) : List Nat :=
  let n := c.toNat
  if n < 0x80 then [n]
  else if n < 0x800 then [0xC0 + n / 64, 0x80 + n % 64]
  else if n < 0x10000 then [0xE0 + n / 4096, 0x80 + n / 64 % 64, 0x80 + n % 64]
  else [0xF0 + n / 262144, 0x80 + n / 4096 % 64, 0x80 + n / 64 % 64, 0x80 + n % 64]

/-- UTF-8 bytes of a whole string. -/
def utf8Encode (cs : List Char) : List Nat :=
  cs.foldr (fun c acc => utf8Bytes c ++ acc) []

/-- The 64 digits of standard base64. -/
def base64Table : List Char :=
  "ABCDEFGHIJKLMNOPQRSTUVWXYZabcdefghijklmnopqrstuvwxyz0123456789+/".toList

/-- Digit of base64 for a 6-bit value. -/
def b64c (n : Nat) : Char := base64Table.getD n 'A'

/-- Standard padded base64 of a byte list, three bytes at a time. -/
def base64Go : List Nat → List Char
  | [] => []
  | [a] => [b64c (a / 4), b64c (a % 4 * 16), '=', '=']
  | [a, b] => [b64c (a / 4), b64c (a % 4 * 16 + b / 16), b64c (b % 16 * 4), '=']
  | a :: b :: c :: rest =>
      b64c (a / 4) :: b64c (a % 4 * 16 + b / 16) :: b64c (b % 16 * 4 + c / 64) ::
        b64c (c % 64) :: base64Go rest

/-- Buffer.from(content).toString('base64'), the content fingerprint
used by enqueueMessage for duplicate detection. -/
def contentHash (content : String) : String :=
  String.mk (base64Go (utf8Encode content.data))

/-! ### Redis primitives (redis.service.ts)

Lists keep the LPUSH end at the head, so RPOP removes the last element
and LRANGE 0 -1 returns the list head (newest) first.  Sets are
duplicate-free lists; SADD of a present member is a no-op. -/

/-- LPUSH: prepend at the head of the list. -/
def lpush (l : List Stored) (v : Stored) : List Stored := v :: l

/-- RPOP: remove and return the element at the tail (the oldest LPUSHed
entry), or none when the list is empty. -/
def rpop (l : List Stored) : Option (Stored × List Stored) :=
  l.getLast?.map (fun e => (e, l.dropLast))

/-- LRANGE key 0 -1: the whole list, head (most recent LPUSH) first. -/
def lrange (l : List Stored) : List Stored := l

/-- SADD: add a member to a set unless already present. -/
def sadd {α : Type} [DecidableEq α] (s : List α) (v : α) : List α :=
  if v ∈ s then s else s ++ [v]

/-- SREM: remove a member from a set. -/
def srem {α : Type} [DecidableEq α] (s : List α) (v : α) : List α :=
  s.filter (fun x => x ≠ v)

/-! ### Engine state

One field per Redis key used by MessageService: the four priority
queues, the four per-tier content-hash sets, and the four tracking
sets. -/

structure EngineState where
  queueUrgent : List Stored
  queueHigh : List Stored
  queueNormal : List Stored
  queueLow : List Stored
  contentHashesUrgent : List String
  contentHashesHigh : List String
  contentHashesNormal : List String
  contentHashesLow : List String
  uniqueMessageIds : List String
  processingMessages : List Stored
  completedMessages : List Stored
  failedMessages : List Stored
  deriving DecidableEq, Repr

/-- The empty store: no key holds anything. -/
def initState : EngineState :=
  { queueUrgent := [], queueHigh := [], queueNormal := [], queueLow := []
    contentHashesUrgent := [], contentHashesHigh := []
    contentHashesNormal := [], contentHashesLow := []
    uniqueMessageIds := [], processingMessages := []
    completedMessages := [], failedMessages := [] }

/-- The queue list behind queueKeys[priority]. -/
def queueOf (st : EngineState) : MessagePriority → List Stored
  | .urgent => st.queueUrgent
  | .high => st.queueHigh
  | .normal => st.queueNormal
  | .low => st.queueLow

/-- Store back the queue list of one priority. -/
def setQueueOf (st : EngineState) : MessagePriority → List Stored → EngineState
  | .urgent, q => { st with queueUrgent := q }
  | .high, q => { st with queueHigh := q }
  | .normal, q => { st with queueNormal := q }
  | .low, q => { st with queueLow := q }

/-- The set behind the key content_hashes:&lt;priority&gt;. -/
def hashesOf (st : EngineState) : MessagePriority → List String
  | .urgent => st.contentHashesUrgent
  | .high => st.contentHashesHigh
  | .normal => st.contentHashesNormal
  | .low => st.contentHashesLow

/-- Store back the content-hash set of one priority. -/
def setHashesOf (st : EngineState) : MessagePriority → List String → EngineState
  | .urgent, h => { st with contentHashesUrgent := h }
  | .high, h => { st with contentHashesHigh := h }
  | .normal, h => { st with contentHashesNormal := h }
  | .low, h => { st with contentHashesLow := h }

/-- CreateMessageDto from message.interface.ts. -/
structure CreateMessageDto where
  content : String
  priority : Option MessagePriority := none
  userId : Option String := none
  deriving DecidableEq, Repr

/-- QueueStats from message.interface.ts; priorityBreakdown is spread
into one field per tier. -/
structure QueueStats where
  totalMessages : Nat
  pendingMessages : Nat
  processingMessages : Nat
  completedMessages : Nat
  failedMessages : Nat
  breakdownUrgent : Nat
  breakdownHigh : Nat
  breakdownNormal : Nat
  breakdownLow : Nat
  uniqueMessageIds : Nat
  deriving DecidableEq, Repr

/-- ProcessedMessage from message.interface.ts. -/
structure ProcessedMessage where
  message : Option MessageData
  queueStats : QueueStats
  deriving DecidableEq, Repr

/-! ### MessageService operations

Each method returns its TypeScript result paired with the state of the
store after the call; a thrown Error becomes the Except.error of the
thrown message string, with the store as it was at the throw point. -/

/-- Object.values(MessagePriority): enum declaration order. -/
def priorityValues : List MessagePriority :=
  [.low, .normal, .high, .urgent]

/-- getQueueStats: per-tier LLEN, SCARD of the three lifecycle sets and
of the id set, pending = sum of tier lengths, total = pending +
processing + completed + failed. -/
def getQueueStats (st : EngineState) : QueueStats :=
  let pending := st.queueLow.length + st.queueNormal.length +
    st.queueHigh.length + st.queueUrgent.length
  { totalMessages := pending + st.processingMessages.length +
      st.completedMessages.length + st.failedMessages.length
    pendingMessages := pending
    processingMessages := st.processingMessages.length
    completedMessages := st.completedMessages.length
    failedMessages := st.failedMessages.length
    breakdownUrgent := st.queueUrgent.length
    breakdownHigh := st.queueHigh.length
    breakdownNormal := st.queueNormal.length
    breakdownLow := st.queueLow.length
    uniqueMessageIds := st.uniqueMessageIds.length }

/-- enqueueMessage.  messageId and timestamp stand for the Date.now /
Math.random generated id and the ISO timestamp.  The duplicate check
(SISMEMBER on the tier's content_hashes set) happens before any write;
on success the message is LPUSHed, the id SADDed to unique_message_ids
and the hash SADDed to the tier's content_hashes set. -/
def enqueueMessage (st : EngineState) (dto : CreateMessageDto)
    (messageId timestamp : String) : Except String MessageData × EngineState :=
  let content := dto.content
  let priority := dto.priority.getD .normal
  let hash := contentHash content
  if hash ∈ hashesOf st priority then
    (.error "Duplicate message detected", st)
  else
    let message : MessageData :=
      { id := messageId, content := content, timestamp := timestamp
        priority := priority, status := .pending, retryCount := some 0 }
    let st1 := setQueueOf st priority (lpush (queueOf st priority) (.valid message))
    let st2 := { st1 with uniqueMessageIds := sadd st1.uniqueMessageIds messageId }
    let st3 := setHashesOf st2 priority (sadd (hashesOf st2 priority) hash)
    (.ok message, st3)

/-- The for-loop of getNextMessage over the remaining priorities: RPOP
the tier; a missing value moves to the next tier; a popped value that
fails to parse is logged and the loop continues with the next tier; a
valid message is marked processing and SADDed to processing_messages. -/
def scanTiers (now : String) : List MessagePriority → EngineState →
    Option MessageData × EngineState
  | [], st => (none, st)
  | p :: rest, st =>
    match rpop (queueOf st p) with
    | none => scanTiers now rest st
    | some (e, q) =>
      let st1 := setQueueOf st p q
      match parseMessageSafely e with
      | some m =>
        let m1 := { m with status := .processing, processingStartTime := some now }
        (some m1,
          { st1 with processingMessages := sadd st1.processingMessages (.valid m1) })
      | none => scanTiers now rest st1

/-- getNextMessage: scan urgent, high, normal, low; the stats snapshot
is taken after the pop and the processing-set insert (or after the
whole empty scan). -/
def getNextMessage (st : EngineState) (now : String) :
    ProcessedMessage × EngineState :=
  let r := scanTiers now [.urgent, .high, .normal, .low] st
  ({ message := r.1, queueStats := getQueueStats r.2 }, r.2)

/-- The loop of completeMessage over the SMEMBERS of
processing_messages: the first entry that parses with the requested id
is SREMed from processing and SADDed, with status and completedTime
updated, into completed_messages or failed_messages. -/
def completeScan (st : EngineState) (messageId : String) (success : Bool)
    (now : String) : List Stored → Except String Unit × EngineState
  | [] => (.error ("Message " ++ messageId ++ " not found in processing queue"), st)
  | e :: rest =>
    match parseMessageSafely e with
    | some m =>
      if m.id = messageId then
        let st1 := { st with processingMessages := srem st.processingMessages e }
        let m1 := { m with
          status := if success then MessageStatus.completed else MessageStatus.failed
          completedTime := some now }
        let st2 :=
          if success then
            { st1 with completedMessages := sadd st1.completedMessages (.valid m1) }
          else
            { st1 with failedMessages := sadd st1.failedMessages (.valid m1) }
        (.ok (), st2)
      else completeScan st messageId success now rest
    | none => completeScan st messageId success now rest

/-- completeMessage(messageId, success). -/
def completeMessage (st : EngineState) (messageId : String) (success : Bool)
    (now : String) : Except String Unit × EngineState :=
  completeScan st messageId success now st.processingMessages

/-- The loop of retryFailedMessage over the SMEMBERS of
failed_messages: the first entry that parses, has the requested id and
retryCount (defaulted to 0) below 3 is SREMed from failed, gets
retryCount bumped, status pending and both timestamps cleared, and is
LPUSHed back onto the queue of its own priority. -/
def retryScan (st : EngineState) (messageId : String) :
    List Stored → Except String Unit × EngineState
  | [] =>
    (.error ("Message " ++ messageId ++
      " not found in failed queue or max retries exceeded"), st)
  | e :: rest =>
    match parseMessageSafely e with
    | some m =>
      if m.id = messageId ∧ m.retryCount.getD 0 < 3 then
        let st1 := { st with failedMessages := srem st.failedMessages e }
        let m1 := { m with
          retryCount := some (m.retryCount.getD 0 + 1)
          status := MessageStatus.pending
          processingStartTime := none
          completedTime := none }
        let st2 := setQueueOf st1 m.priority (lpush (queueOf st1 m.priority) (.valid m1))
        (.ok (), st2)
      else retryScan st messageId rest
    | none => retryScan st messageId rest

/-- retryFailedMessage(messageId). -/
def retryFailedMessage (st : EngineState) (messageId : String) :
    Except String Unit × EngineState :=
  retryScan st messageId st.failedMessages

/-- getMessagesByPriority: LRANGE of one tier, parsed, with entries
that fail to parse filtered out; LRANGE leaves the store untouched. -/
def getMessagesByPriority (st : EngineState) (priority : MessagePriority) :
    List MessageData × EngineState :=
  ((lrange (queueOf st priority)).filterMap parseMessageSafely, st)

/-- getAllMessages: the tiers in Object.values(MessagePriority) order
(low, normal, high, urgent), each LRANGEd head-first and parsed. -/
def getAllMessages (st : EngineState) : List MessageData × EngineState :=
  ((priorityValues.map
      (fun p => (lrange (queueOf st p)).filterMap parseMessageSafely)).flatten, st)

/-- clearCompletedMessages: SCARD then DEL of completed_messages. -/
def clearCompletedMessages (st : EngineState) : Nat × EngineState :=
  (st.completedMessages.length, { st with completedMessages := [] })

/-- purgeAllQueues: DEL of every queue key, every tracking set and
every content_hashes set. -/
def purgeAllQueues (_st : EngineState) : EngineState :=
  { queueUrgent := [], queueHigh := [], queueNormal := [], queueLow := []
    contentHashesUrgent := [], contentHashesHigh := []
    contentHashesNormal := [], contentHashesLow := []
    uniqueMessageIds := [], processingMessages := []
    completedMessages := [], failedMessages := [] }


/-! ### Injectivity of the fingerprint

Decoders for the two encoding stages act as left inverses, so the
fingerprint of enqueueMessage is injective: distinct contents never
collide in a deduplication index. -/

/-- Index of a base64 digit in the table. -/
def b64v (c : Char) : Nat := base64Table.indexOf c

/-- Decoder of base64Go output, a left inverse on encoded byte lists. -/
def b64dec : List Char → List Nat
  | w :: x :: y :: z :: rest =>
    if y = '=' then [b64v w * 4 + b64v x / 16]
    else if z = '=' then
      [b64v w * 4 + b64v x / 16, b64v x % 16 * 16 + b64v y / 4]
    else
      (b64v w * 4 + b64v x / 16) :: (b64v x % 16 * 16 + b64v y / 4) ::
        (b64v y % 4 * 64 + b64v z) :: b64dec rest
  | _ => []

theorem b64v_b64c {n : Nat} (h : n < 64) : b64v (b64c n) = n := by
  have h64 : ∀ i : Fin 64, b64v (b64c i.val) = i.val := by decide
  exact h64 ⟨n, h⟩

theorem b64c_ne_pad (n : Nat) : b64c n ≠ '=' := by
  unfold b64c
  rcases Nat.lt_or_ge n 64 with h | h
  · have hall : ∀ i : Fin 64, base64Table.getD i.val 'A' ≠ '=' := by decide
    exact hall ⟨n, h⟩
  · rw [List.getD_eq_default]
    · decide
    · have : base64Table.length = 64 := by decide
      omega

theorem b64dec_pad2 (w x : Char) :
    b64dec [w, x, '=', '='] = [b64v w * 4 + b64v x / 16] := by
  simp [b64dec]

theorem b64dec_pad1 (w x y : Char) (hy : y ≠ '=') :
    b64dec [w, x, y, '='] =
      [b64v w * 4 + b64v x / 16, b64v x % 16 * 16 + b64v y / 4] := by
  simp [b64dec, hy]

theorem b64dec_full (w x y z : Char) (rest : List Char)
    (hy : y ≠ '=') (hz : z ≠ '=') :
    b64dec (w :: x :: y :: z :: rest) =
      (b64v w * 4 + b64v x / 16) :: (b64v x % 16 * 16 + b64v y / 4) ::
        (b64v y % 4 * 64 + b64v z) :: b64dec rest := by
  simp [b64dec, hy, hz]

theorem b64dec_base64Go :
    ∀ bs : List Nat, (∀ b ∈ bs, b < 256) → b64dec (base64Go bs) = bs
  | [], _ => rfl
  | [a], h => by
    have ha : a < 256 := h a (by simp)
    show b64dec [b64c (a / 4), b64c (a % 4 * 16), '=', '='] = [a]
    rw [b64dec_pad2, b64v_b64c (by omega), b64v_b64c (by omega)]
    have e : a / 4 * 4 + a % 4 * 16 / 16 = a := by omega
    rw [e]
  | [a, b], h => by
    have ha : a < 256 := h a (by simp)
    have hb : b < 256 := h b (by simp)
    show b64dec [b64c (a / 4), b64c (a % 4 * 16 + b / 16), b64c (b % 16 * 4), '=']
      = [a, b]
    rw [b64dec_pad1 _ _ _ (b64c_ne_pad _),
      b64v_b64c (by omega), b64v_b64c (by omega), b64v_b64c (by omega)]
    have e1 : a / 4 * 4 + (a % 4 * 16 + b / 16) / 16 = a := by omega
    have e2 : (a % 4 * 16 + b / 16) % 16 * 16 + b % 16 * 4 / 4 = b := by omega
    rw [e1, e2]
  | a :: b :: c :: rest, h => by
    have ha : a < 256 := h a (by simp)
    have hb : b < 256 := h b (by simp)
    have hc : c < 256 := h c (by simp)
    have ih : b64dec (base64Go rest) = rest :=
      b64dec_base64Go rest (fun x hx =>
        h x (List.mem_cons_of_mem _ (List.mem_cons_of_mem _
          (List.mem_cons_of_mem _ hx))))
    show b64dec (b64c (a / 4) :: b64c (a % 4 * 16 + b / 16) ::
      b64c (b % 16 * 4 + c / 64) :: b64c (c % 64) :: base64Go rest)
      = a :: b :: c :: rest
    rw [b64dec_full _ _ _ _ _ (b64c_ne_pad _) (b64c_ne_pad _),
      b64v_b64c (by omega), b64v_b64c (by omega), b64v_b64c (by omega),
      b64v_b64c (by omega), ih]
    have e1 : a / 4 * 4 + (a % 4 * 16 + b / 16) / 16 = a := by omega
    have e2 : (a % 4 * 16 + b / 16) % 16 * 16 + (b % 16 * 4 + c / 64) / 4 = b := by
      omega
    have e3 : (b % 16 * 4 + c / 64) % 4 * 64 + c % 64 = c := by omega
    rw [e1, e2, e3]

/-- Continuation length expected after a UTF-8 lead byte. -/
def utf8Tail (b : Nat) : Nat :=
  if b < 0x80 then 0 else if b < 0xE0 then 1 else if b < 0xF0 then 2 else 3

/-- Scalar value reassembled from a lead byte and its continuation. -/
def utf8Val (b : Nat) (cont : List Nat) : Nat :=
  if b < 0x80 then b
  else if b < 0xE0 then (b - 0xC0) * 64 + (cont.getD 0 0 - 0x80)
  else if b < 0xF0 then
    (b - 0xE0) * 4096 + (cont.getD 0 0 - 0x80) * 64 + (cont.getD 1 0 - 0x80)
  else
    (b - 0xF0) * 262144 + (cont.getD 0 0 - 0x80) * 4096 +
      (cont.getD 1 0 - 0x80) * 64 + (cont.getD 2 0 - 0x80)

/-- Decoder of UTF-8 byte lists, a left inverse on encoded strings. -/
def utf8Dec : List Nat → List Char
  | [] => []
  | b :: rest =>
      Char.ofNat (utf8Val b (rest.take (utf8Tail b))) ::
        utf8Dec (rest.drop (utf8Tail b))
termination_by l => l.length
decreasing_by
  simp only [List.length_drop, List.length_cons]
  omega

theorem char_toNat_lt (c : Char) : c.toNat < 0x110000 := by
  rcases c.valid with h | h
  · exact Nat.lt_trans h (by norm_num)
  · exact h.2

theorem utf8Bytes_lt (c : Char) : ∀ b ∈ utf8Bytes c, b < 256 := by
  have hv := char_toNat_lt c
  unfold utf8Bytes
  by_cases h1 : c.toNat < 0x80
  · simp [h1]; omega
  · by_cases h2 : c.toNat < 0x800
    · simp [h1, h2]; omega
    · by_cases h3 : c.toNat < 0x10000
      · simp [h1, h2, h3]; omega
      · simp [h1, h2, h3]; omega

theorem utf8Dec_cons (b : Nat) (rest : List Nat) :
    utf8Dec (b :: rest) =
      Char.ofNat (utf8Val b (rest.take (utf8Tail b))) ::
        utf8Dec (rest.drop (utf8Tail b)) := by
  rw [utf8Dec]

theorem utf8Dec_utf8Bytes (c : Char) (rest : List Nat) :
    utf8Dec (utf8Bytes c ++ rest) = c :: utf8Dec rest := by
  have hv := char_toNat_lt c
  unfold utf8Bytes
  by_cases h1 : c.toNat < 0x80
  · simp only [h1, if_pos, List.cons_append, List.nil_append]
    rw [utf8Dec_cons]
    have ht : utf8Tail c.toNat = 0 := by simp [utf8Tail, h1]
    rw [ht]
    simp only [List.take_zero, List.drop_zero]
    have hval : utf8Val c.toNat [] = c.toNat := by simp [utf8Val, h1]
    rw [hval, Char.ofNat_toNat]
  · by_cases h2 : c.toNat < 0x800
    · simp only [h1, h2, if_true, if_false, List.cons_append, List.nil_append]
      rw [utf8Dec_cons]
      have ht : utf8Tail (0xC0 + c.toNat / 64) = 1 := by
        simp only [utf8Tail]
        rw [if_neg (by omega), if_pos (by omega)]
      rw [ht]
      simp only [List.take_succ_cons, List.take_zero, List.drop_succ_cons,
        List.drop_zero]
      have hval : utf8Val (0xC0 + c.toNat / 64) [0x80 + c.toNat % 64] = c.toNat := by
        simp only [utf8Val]
        rw [if_neg (by omega), if_pos (by omega)]
        simp only [List.getD_cons_zero]
        omega
      rw [hval, Char.ofNat_toNat]
    · by_cases h3 : c.toNat < 0x10000
      · simp only [h1, h2, h3, if_true, if_false, List.cons_append, List.nil_append]
        rw [utf8Dec_cons]
        have ht : utf8Tail (0xE0 + c.toNat / 4096) = 2 := by
          simp only [utf8Tail]
          rw [if_neg (by omega), if_neg (by omega), if_pos (by omega)]
        rw [ht]
        simp only [List.take_succ_cons, List.take_zero, List.drop_succ_cons,
          List.drop_zero]
        have hval : utf8Val (0xE0 + c.toNat / 4096)
            [0x80 + c.toNat / 64 % 64, 0x80 + c.toNat % 64] = c.toNat := by
          simp only [utf8Val]
          rw [if_neg (by omega), if_neg (by omega), if_pos (by omega)]
          simp only [List.getD_cons_zero, List.getD_cons_succ]
          omega
        rw [hval, Char.ofNat_toNat]
      · simp only [h1, h2, h3, if_true, if_false, List.cons_append, List.nil_append]
        rw [utf8Dec_cons]
        have ht : utf8Tail (0xF0 + c.toNat / 262144) = 3 := by
          simp only [utf8Tail]
          rw [if_neg (by omega), if_neg (by omega), if_neg (by omega)]
        rw [ht]
        simp only [List.take_succ_cons, List.take_zero, List.drop_succ_cons,
          List.drop_zero]
        have hval : utf8Val (0xF0 + c.toNat / 262144)
            [0x80 + c.toNat / 4096 % 64, 0x80 + c.toNat / 64 % 64,
              0x80 + c.toNat % 64] = c.toNat := by
          simp only [utf8Val]
          rw [if_neg (by omega), if_neg (by omega), if_neg (by omega)]
          simp only [List.getD_cons_zero, List.getD_cons_succ]
          omega
        rw [hval, Char.ofNat_toNat]

theorem utf8Dec_utf8Encode (cs : List Char) : utf8Dec (utf8Encode cs) = cs := by
  induction cs with
  | nil => rw [show utf8Encode [] = [] from rfl, utf8Dec]
  | cons c cs ih =>
    show utf8Dec (utf8Bytes c ++ utf8Encode cs) = c :: cs
    rw [utf8Dec_utf8Bytes, ih]

theorem utf8Encode_lt (cs : List Char) : ∀ b ∈ utf8Encode cs, b < 256 := by
  induction cs with
  | nil => intro b hb; simp [utf8Encode] at hb
  | cons c cs ih =>
    intro b hb
    have hmem : b ∈ utf8Bytes c ++ utf8Encode cs := hb
    rcases List.mem_append.mp hmem with h | h
    · exact utf8Bytes_lt c b h
    · exact ih b h

theorem contentHash_injective : Function.Injective contentHash := by
  intro s1 s2 h
  have hdata : base64Go (utf8Encode s1.data) = base64Go (utf8Encode s2.data) :=
    congrArg String.data h
  have henc : utf8Encode s1.data = utf8Encode s2.data := by
    have e1 := b64dec_base64Go (utf8Encode s1.data) (utf8Encode_lt s1.data)
    have e2 := b64dec_base64Go (utf8Encode s2.data) (utf8Encode_lt s2.data)
    rw [← e1, ← e2, hdata]
  have hchars : s1.data = s2.data := by
    have e1 := utf8Dec_utf8Encode s1.data
    have e2 := utf8Dec_utf8Encode s2.data
    rw [← e1, ← e2, henc]
  cases s1; cases s2; exact congrArg String.mk hchars


/-- Decidable equality of call results. -/
instance {e a : Type} [DecidableEq e] [DecidableEq a] : DecidableEq (Except e a) :=
  fun x y =>
    match x, y with
    | .ok v, .ok w => decidable_of_iff (v = w) (by simp)
    | .error v, .error w => decidable_of_iff (v = w) (by simp)
    | .ok _, .error _ => isFalse (by simp)
    | .error _, .ok _ => isFalse (by simp)

/-! ### Derived notions used by the claims -/

/-- Status transition applied by getNextMessage to a popped message. -/
def toProcessing (m : MessageData) (now : String) : MessageData :=
  { m with status := .processing, processingStartTime := some now }

/-- The message record that enqueueMessage creates. -/
def mkEnqueued (content messageId timestamp : String)
    (p : MessagePriority) : MessageData :=
  { id := messageId, content := content, timestamp := timestamp
    priority := p, status := .pending, retryCount := some 0 }

/-- One enqueue request: a content plus the generated id and timestamp
the call would draw from the environment. -/
structure EnqueueReq where
  content : String
  reqId : String
  reqTime : String
  deriving DecidableEq, Repr

/-- Enqueue a batch of requests into one tier, in order. -/
def enqueueSeq (p : MessagePriority) : EngineState → List EnqueueReq → EngineState
  | st, [] => st
  | st, r :: rs =>
      enqueueSeq p (enqueueMessage st ⟨r.content, some p, none⟩ r.reqId r.reqTime).2 rs

/-- Dequeue once per supplied timestamp, collecting the returned
messages. -/
def dequeueSeq : EngineState → List String → List (Option MessageData)
  | _, [] => []
  | st, t :: ts =>
      let r := getNextMessage st t
      r.1.message :: dequeueSeq r.2 ts

/-- The non-administrative engine operations (everything except
purgeAllQueues), with their environment inputs. -/
inductive QOp where
  | enq (dto : CreateMessageDto) (messageId timestamp : String)
  | deq (now : String)
  | compl (messageId : String) (success : Bool) (now : String)
  | retryOp (messageId : String)
  | clearOp
  deriving DecidableEq, Repr

/-- State reached after one operation (its returned value dropped). -/
def applyOp (st : EngineState) : QOp → EngineState
  | .enq dto i t => (enqueueMessage st dto i t).2
  | .deq now => (getNextMessage st now).2
  | .compl i s now => (completeMessage st i s now).2
  | .retryOp i => (retryFailedMessage st i).2
  | .clearOp => (clearCompletedMessages st).2

/-- State reached after a sequence of operations. -/
def applyOps (st : EngineState) (ops : List QOp) : EngineState :=
  ops.foldl applyOp st

/-- Every entry of a stored list parses as a message. -/
def validEntries (l : List Stored) : Prop :=
  ∀ e ∈ l, (parseMessageSafely e).isSome

/-- Every entry of every priority tier parses as a message. -/
def allValid (st : EngineState) : Prop :=
  validEntries st.queueUrgent ∧ validEntries st.queueHigh ∧
    validEntries st.queueNormal ∧ validEntries st.queueLow

instance validEntriesDecidable (l : List Stored) : Decidable (validEntries l) := by
  unfold validEntries
  infer_instance

instance allValidDecidable (st : EngineState) : Decidable (allValid st) := by
  unfold allValid
  infer_instance

/-- Position of a tier in the scan order of getNextMessage
(urgent first). -/
def tierRank : MessagePriority → Nat
  | .urgent => 0
  | .high => 1
  | .normal => 2
  | .low => 3

/-! ### Accessor lemmas -/

@[simp] theorem queueOf_setQueueOf_same (st : EngineState) (p : MessagePriority)
    (q : List Stored) : queueOf (setQueueOf st p q) p = q := by
  cases p <;> rfl

theorem queueOf_setQueueOf_ne (st : EngineState) {p p' : MessagePriority}
    (q : List Stored) (h : p' ≠ p) :
    queueOf (setQueueOf st p q) p' = queueOf st p' := by
  cases p <;> cases p' <;> simp_all [setQueueOf, queueOf]

@[simp] theorem hashesOf_setQueueOf (st : EngineState) (p p' : MessagePriority)
    (q : List Stored) : hashesOf (setQueueOf st p q) p' = hashesOf st p' := by
  cases p <;> cases p' <;> rfl

@[simp] theorem processing_setQueueOf (st : EngineState) (p : MessagePriority)
    (q : List Stored) :
    (setQueueOf st p q).processingMessages = st.processingMessages := by
  cases p <;> rfl

@[simp] theorem completed_setQueueOf (st : EngineState) (p : MessagePriority)
    (q : List Stored) :
    (setQueueOf st p q).completedMessages = st.completedMessages := by
  cases p <;> rfl

@[simp] theorem failed_setQueueOf (st : EngineState) (p : MessagePriority)
    (q : List Stored) :
    (setQueueOf st p q).failedMessages = st.failedMessages := by
  cases p <;> rfl

@[simp] theorem uniqueIds_setQueueOf (st : EngineState) (p : MessagePriority)
    (q : List Stored) :
    (setQueueOf st p q).uniqueMessageIds = st.uniqueMessageIds := by
  cases p <;> rfl

@[simp] theorem hashesOf_setHashesOf_same (st : EngineState) (p : MessagePriority)
    (hs : List String) : hashesOf (setHashesOf st p hs) p = hs := by
  cases p <;> rfl

theorem hashesOf_setHashesOf_ne (st : EngineState) {p p' : MessagePriority}
    (hs : List String) (h : p' ≠ p) :
    hashesOf (setHashesOf st p hs) p' = hashesOf st p' := by
  cases p <;> cases p' <;> simp_all [setHashesOf, hashesOf]

@[simp] theorem queueOf_setHashesOf (st : EngineState) (p p' : MessagePriority)
    (hs : List String) : queueOf (setHashesOf st p hs) p' = queueOf st p' := by
  cases p <;> cases p' <;> rfl

@[simp] theorem failed_setHashesOf (st : EngineState) (p : MessagePriority)
    (hs : List String) :
    (setHashesOf st p hs).failedMessages = st.failedMessages := by
  cases p <;> rfl

@[simp] theorem processing_setHashesOf (st : EngineState) (p : MessagePriority)
    (hs : List String) :
    (setHashesOf st p hs).processingMessages = st.processingMessages := by
  cases p <;> rfl

@[simp] theorem completed_setHashesOf (st : EngineState) (p : MessagePriority)
    (hs : List String) :
    (setHashesOf st p hs).completedMessages = st.completedMessages := by
  cases p <;> rfl

@[simp] theorem uniqueIds_setHashesOf (st : EngineState) (p : MessagePriority)
    (hs : List String) :
    (setHashesOf st p hs).uniqueMessageIds = st.uniqueMessageIds := by
  cases p <;> rfl

@[simp] theorem queueOf_update_processing (st : EngineState) (x : List Stored)
    (p : MessagePriority) :
    queueOf { st with processingMessages := x } p = queueOf st p := by
  cases p <;> rfl

@[simp] theorem queueOf_update_completed (st : EngineState) (x : List Stored)
    (p : MessagePriority) :
    queueOf { st with completedMessages := x } p = queueOf st p := by
  cases p <;> rfl

@[simp] theorem queueOf_update_failed (st : EngineState) (x : List Stored)
    (p : MessagePriority) :
    queueOf { st with failedMessages := x } p = queueOf st p := by
  cases p <;> rfl

@[simp] theorem queueOf_update_uniqueIds (st : EngineState) (x : List String)
    (p : MessagePriority) :
    queueOf { st with uniqueMessageIds := x } p = queueOf st p := by
  cases p <;> rfl

@[simp] theorem hashesOf_update_processing (st : EngineState) (x : List Stored)
    (p : MessagePriority) :
    hashesOf { st with processingMessages := x } p = hashesOf st p := by
  cases p <;> rfl

@[simp] theorem hashesOf_update_completed (st : EngineState) (x : List Stored)
    (p : MessagePriority) :
    hashesOf { st with completedMessages := x } p = hashesOf st p := by
  cases p <;> rfl

@[simp] theorem hashesOf_update_failed (st : EngineState) (x : List Stored)
    (p : MessagePriority) :
    hashesOf { st with failedMessages := x } p = hashesOf st p := by
  cases p <;> rfl

@[simp] theorem hashesOf_update_uniqueIds (st : EngineState) (x : List String)
    (p : MessagePriority) :
    hashesOf { st with uniqueMessageIds := x } p = hashesOf st p := by
  cases p <;> rfl

/-! ### Scan lemmas for getNextMessage -/

theorem scanTiers_skip (now : String) (p : MessagePriority)
    (ps : List MessagePriority) (st : EngineState) (h : queueOf st p = []) :
    scanTiers now (p :: ps) st = scanTiers now ps st := by
  simp [scanTiers, rpop, h]

theorem scanTiers_hit (now : String) (p : MessagePriority)
    (ps : List MessagePriority) (st : EngineState) (m : MessageData)
    (h : (queueOf st p).getLast? = some (Stored.valid m)) :
    scanTiers now (p :: ps) st =
      (some (toProcessing m now),
        { setQueueOf st p (queueOf st p).dropLast with
            processingMessages :=
              sadd st.processingMessages (.valid (toProcessing m now)) }) := by
  simp [scanTiers, rpop, h, parseMessageSafely, toProcessing]

theorem scanTiers_hit_malformed (now : String) (p : MessagePriority)
    (ps : List MessagePriority) (st : EngineState) (s : String)
    (h : (queueOf st p).getLast? = some (Stored.malformed s)) :
    scanTiers now (p :: ps) st =
      scanTiers now ps (setQueueOf st p (queueOf st p).dropLast) := by
  simp [scanTiers, rpop, h, parseMessageSafely]

theorem scanTiers_queues_untouched (now : String) :
    ∀ (ps : List MessagePriority) (st : EngineState) (p : MessagePriority),
      p ∉ ps → queueOf (scanTiers now ps st).2 p = queueOf st p
  | [], _, _, _ => rfl
  | q :: ps, st, p, hp => by
    have hpq : p ≠ q := fun h => hp (h ▸ List.mem_cons_self q ps)
    have hps : p ∉ ps := fun h => hp (List.mem_cons_of_mem q h)
    unfold scanTiers
    match hq : rpop (queueOf st q) with
    | none =>
      simp only [hq]
      exact scanTiers_queues_untouched now ps st p hps
    | some (e, l) =>
      simp only [hq]
      match he : parseMessageSafely e with
      | some m =>
        simp only [he]
        cases p <;> cases q <;> (try exact absurd rfl hpq) <;> rfl
      | none =>
        simp only [he]
        rw [scanTiers_queues_untouched now ps _ p hps]
        exact queueOf_setQueueOf_ne _ _ hpq

/-- Dequeue pops the oldest entry of the first tier (in scan order)
that is non-empty, provided that entry parses; tiers after it are
untouched. -/
theorem getNextMessage_first (st : EngineState) (p : MessagePriority)
    (m : MessageData) (t : String)
    (hlast : (queueOf st p).getLast? = some (Stored.valid m))
    (hbefore : ∀ p', tierRank p' < tierRank p → queueOf st p' = []) :
    (getNextMessage st t).1.message = some (toProcessing m t)
    ∧ queueOf (getNextMessage st t).2 p = (queueOf st p).dropLast
    ∧ (∀ p', p' ≠ p → queueOf (getNextMessage st t).2 p' = queueOf st p') := by
  have key : scanTiers t [.urgent, .high, .normal, .low] st =
      (some (toProcessing m t),
        { setQueueOf st p (queueOf st p).dropLast with
            processingMessages :=
              sadd st.processingMessages (.valid (toProcessing m t)) }) := by
    cases p with
    | urgent => exact scanTiers_hit t .urgent _ st m hlast
    | high =>
      rw [scanTiers_skip t .urgent _ st (hbefore .urgent (by decide))]
      exact scanTiers_hit t .high _ st m hlast
    | normal =>
      rw [scanTiers_skip t .urgent _ st (hbefore .urgent (by decide)),
        scanTiers_skip t .high _ st (hbefore .high (by decide))]
      exact scanTiers_hit t .normal _ st m hlast
    | low =>
      rw [scanTiers_skip t .urgent _ st (hbefore .urgent (by decide)),
        scanTiers_skip t .high _ st (hbefore .high (by decide)),
        scanTiers_skip t .normal _ st (hbefore .normal (by decide))]
      exact scanTiers_hit t .low _ st m hlast
  refine ⟨?_, ?_, ?_⟩
  · show (scanTiers t [.urgent, .high, .normal, .low] st).1 = _
    rw [key]
  · show queueOf (scanTiers t [.urgent, .high, .normal, .low] st).2 p = _
    rw [key]
    cases p <;> rfl
  · intro p' hp'
    show queueOf (scanTiers t [.urgent, .high, .normal, .low] st).2 p' = _
    rw [key]
    cases p' <;> cases p <;> (try exact absurd rfl hp') <;> rfl

theorem scanTiers_all_empty (now : String) :
    ∀ (ps : List MessagePriority) (st : EngineState),
      (∀ p ∈ ps, queueOf st p = []) → scanTiers now ps st = (none, st)
  | [], _, _ => rfl
  | p :: ps, st, h => by
    rw [scanTiers_skip now p ps st (h p (List.mem_cons_self p ps))]
    exact scanTiers_all_empty now ps st (fun q hq => h q (List.mem_cons_of_mem p hq))

/-! ### Enqueue lemmas -/

/-- A non-duplicate enqueue succeeds and changes exactly the target
queue, the target hash set, and the id set. -/
theorem enqueueMessage_ok (st : EngineState) (c : String) (p : MessagePriority)
    (id ts : String) (h : contentHash c ∉ hashesOf st p) :
    (enqueueMessage st ⟨c, some p, none⟩ id ts).1 = .ok (mkEnqueued c id ts p)
    ∧ queueOf (enqueueMessage st ⟨c, some p, none⟩ id ts).2 p =
        .valid (mkEnqueued c id ts p) :: queueOf st p
    ∧ (∀ p', p' ≠ p →
        queueOf (enqueueMessage st ⟨c, some p, none⟩ id ts).2 p' = queueOf st p')
    ∧ hashesOf (enqueueMessage st ⟨c, some p, none⟩ id ts).2 p =
        sadd (hashesOf st p) (contentHash c)
    ∧ (∀ p', p' ≠ p →
        hashesOf (enqueueMessage st ⟨c, some p, none⟩ id ts).2 p' = hashesOf st p')
    ∧ (enqueueMessage st ⟨c, some p, none⟩ id ts).2.processingMessages =
        st.processingMessages
    ∧ (enqueueMessage st ⟨c, some p, none⟩ id ts).2.completedMessages =
        st.completedMessages
    ∧ (enqueueMessage st ⟨c, some p, none⟩ id ts).2.failedMessages =
        st.failedMessages
    ∧ (enqueueMessage st ⟨c, some p, none⟩ id ts).2.uniqueMessageIds =
        sadd st.uniqueMessageIds id := by
  simp only [enqueueMessage, Option.getD_some]
  rw [if_neg h]
  refine ⟨rfl, ?_, ?_, ?_, ?_, ?_, ?_, ?_, ?_⟩
  · cases p <;> rfl
  · intro p' hp'
    cases p' <;> cases p <;> (try exact absurd rfl hp') <;> rfl
  · cases p <;> rfl
  · intro p' hp'
    cases p' <;> cases p <;> (try exact absurd rfl hp') <;> rfl
  · cases p <;> rfl
  · cases p <;> rfl
  · cases p <;> rfl
  · cases p <;> rfl

/-! ### Claim theorems -/

/-- C2: content whose fingerprint is already in tier P is rejected as a
duplicate when enqueued into P again, while the same content enqueued
into a tier P2 whose index does not hold the fingerprint succeeds and is
pushed onto P2. -/
theorem enqueue_dedup_scoped (st : EngineState) (c : String)
    (p p2 : MessagePriority) (id ts id2 ts2 : String)
    (hp : contentHash c ∈ hashesOf st p)
    (hp2 : contentHash c ∉ hashesOf st p2) :
    (enqueueMessage st ⟨c, some p, none⟩ id ts).1 =
      .error "Duplicate message detected"
    ∧ (enqueueMessage st ⟨c, some p2, none⟩ id2 ts2).1 =
        .ok (mkEnqueued c id2 ts2 p2)
    ∧ queueOf (enqueueMessage st ⟨c, some p2, none⟩ id2 ts2).2 p2 =
        .valid (mkEnqueued c id2 ts2 p2) :: queueOf st p2 := by
  have hok := enqueueMessage_ok st c p2 id2 ts2 hp2
  refine ⟨?_, hok.1, hok.2.1⟩
  simp only [enqueueMessage, Option.getD_some]
  rw [if_pos hp]

def stC2w : EngineState := { initState with contentHashesLow := [contentHash "x"] }

theorem enqueue_dedup_scoped_witness :
    (enqueueMessage stC2w ⟨"x", some .low, none⟩ "i1" "t1").1 =
      .error "Duplicate message detected"
    ∧ (enqueueMessage stC2w ⟨"x", some .high, none⟩ "i2" "t2").1 =
        .ok (mkEnqueued "x" "i2" "t2" .high)
    ∧ queueOf (enqueueMessage stC2w ⟨"x", some .high, none⟩ "i2" "t2").2 .high =
        .valid (mkEnqueued "x" "i2" "t2" .high) :: queueOf stC2w .high :=
  enqueue_dedup_scoped stC2w "x" .low .high "i1" "t1" "i2" "t2"
    (by decide) (by decide)

/-- C9: an enqueue rejected as a duplicate leaves the whole store
exactly as it was, and the freshly generated id is in particular not
registered in the all-ids set. -/
theorem enqueue_duplicate_atomic (st : EngineState) (dto : CreateMessageDto)
    (messageId timestamp : String)
    (hdup : contentHash dto.content ∈ hashesOf st (dto.priority.getD .normal))
    (hfresh : messageId ∉ st.uniqueMessageIds) :
    enqueueMessage st dto messageId timestamp =
      (.error "Duplicate message detected", st)
    ∧ messageId ∉ (enqueueMessage st dto messageId timestamp).2.uniqueMessageIds := by
  have he : enqueueMessage st dto messageId timestamp =
      (.error "Duplicate message detected", st) := by
    simp only [enqueueMessage, Option.getD_some]
    rw [if_pos hdup]
  exact ⟨he, by rw [he]; exact hfresh⟩

theorem enqueue_duplicate_atomic_witness :
    enqueueMessage stC2w ⟨"x", some .low, none⟩ "i9" "t9" =
      (.error "Duplicate message detected", stC2w)
    ∧ "i9" ∉ (enqueueMessage stC2w ⟨"x", some .low, none⟩ "i9" "t9").2.uniqueMessageIds :=
  enqueue_duplicate_atomic stC2w ⟨"x", some .low, none⟩ "i9" "t9"
    (by decide) (by decide)

/-- C8: after purgeAllQueues every count of getQueueStats is zero and
both listing operations return empty lists for every tier. -/
theorem purge_all_zero (st : EngineState) :
    getQueueStats (purgeAllQueues st) =
      { totalMessages := 0, pendingMessages := 0, processingMessages := 0
        completedMessages := 0, failedMessages := 0, breakdownUrgent := 0
        breakdownHigh := 0, breakdownNormal := 0, breakdownLow := 0
        uniqueMessageIds := 0 }
    ∧ (getAllMessages (purgeAllQueues st)).1 = []
    ∧ ∀ p : MessagePriority, (getMessagesByPriority (purgeAllQueues st) p).1 = [] := by
  refine ⟨rfl, rfl, fun p => ?_⟩
  cases p <;> rfl

/-! ### Retry scan lemmas -/

theorem retryScan_not_found (st : EngineState) (mid : String) :
    ∀ l : List Stored,
      (∀ e ∈ l, ∀ m, parseMessageSafely e = some m → m.id = mid →
        ¬ m.retryCount.getD 0 < 3) →
      retryScan st mid l =
        (.error ("Message " ++ mid ++
          " not found in failed queue or max retries exceeded"), st)
  | [], _ => rfl
  | e :: rest, h => by
    have hrest := retryScan_not_found st mid rest
      (fun e' he' => h e' (List.mem_cons_of_mem e he'))
    rcases hpe : parseMessageSafely e with _ | m
    · simp only [retryScan, hpe]
      exact hrest
    · have hneg : ¬ (m.id = mid ∧ m.retryCount.getD 0 < 3) := by
        rintro ⟨h1, h2⟩
        exact h e (List.mem_cons_self e rest) m hpe h1 h2
      simp only [retryScan, hpe, if_neg hneg]
      exact hrest

theorem retryScan_found (st : EngineState) (mid : String) (m : MessageData)
    (hid : m.id = mid) (hr : m.retryCount.getD 0 < 3) :
    ∀ l : List Stored,
      Stored.valid m ∈ l →
      (∀ e ∈ l, ∀ m', parseMessageSafely e = some m' → m'.id = mid →
        e = Stored.valid m) →
      retryScan st mid l =
        (.ok (),
          setQueueOf { st with failedMessages := srem st.failedMessages (.valid m) }
            m.priority
            (lpush
              (queueOf
                { st with failedMessages := srem st.failedMessages (.valid m) }
                m.priority)
              (.valid { m with
                retryCount := some (m.retryCount.getD 0 + 1),
                status := .pending,
                processingStartTime := none,
                completedTime := none })))
  | e :: rest, hmem, huniq => by
    by_cases hem : e = Stored.valid m
    · subst hem
      simp only [retryScan, parseMessageSafely, if_pos (And.intro hid hr)]
    · have hmem2 : Stored.valid m ∈ rest := by
        rcases List.mem_cons.mp hmem with h | h
        · exact absurd h.symm hem
        · exact h
      have hrest := retryScan_found st mid m hid hr rest hmem2
        (fun e' he' => huniq e' (List.mem_cons_of_mem e he'))
      rcases hpe : parseMessageSafely e with _ | m'
      · simp only [retryScan, hpe]
        exact hrest
      · have hneg : ¬ (m'.id = mid ∧ m'.retryCount.getD 0 < 3) := by
          rintro ⟨h1, _⟩
          exact hem (huniq e (List.mem_cons_self e rest) m' hpe h1)
        simp only [retryScan, hpe, if_neg hneg]
        exact hrest

/-- C3: retrying a failed message with retryCount r below 3 succeeds,
bumps retryCount to exactly r+1, resets status to pending, clears both
timestamps, removes the message from the failed collection, and pushes
it onto the tier of its own (unchanged) priority. -/
theorem retry_success_spec (st : EngineState) (mid : String) (m : MessageData)
    (r : Nat)
    (hmem : Stored.valid m ∈ st.failedMessages)
    (hid : m.id = mid)
    (hr : m.retryCount = some r)
    (hr3 : r < 3)
    (huniq : ∀ e ∈ st.failedMessages, ∀ m', parseMessageSafely e = some m' →
      m'.id = mid → e = Stored.valid m) :
    (retryFailedMessage st mid).1 = .ok ()
    ∧ (retryFailedMessage st mid).2.failedMessages =
        srem st.failedMessages (.valid m)
    ∧ queueOf (retryFailedMessage st mid).2 m.priority =
        .valid { m with
          retryCount := some (r + 1),
          status := .pending,
          processingStartTime := none,
          completedTime := none } :: queueOf st m.priority
    ∧ (∀ p', p' ≠ m.priority →
        queueOf (retryFailedMessage st mid).2 p' = queueOf st p')
    ∧ (∀ e ∈ (retryFailedMessage st mid).2.failedMessages,
        ∀ m', parseMessageSafely e = some m' → m'.id ≠ mid) := by
  have hgetd : m.retryCount.getD 0 = r := by rw [hr]; rfl
  have keyr : retryFailedMessage st mid =
      (.ok (),
        setQueueOf { st with failedMessages := srem st.failedMessages (.valid m) }
          m.priority
          (lpush
            (queueOf
              { st with failedMessages := srem st.failedMessages (.valid m) }
              m.priority)
            (.valid { m with
              retryCount := some (m.retryCount.getD 0 + 1),
              status := .pending,
              processingStartTime := none,
              completedTime := none }))) :=
    retryScan_found st mid m hid (by rw [hgetd]; exact hr3)
      st.failedMessages hmem huniq
  refine ⟨?_, ?_, ?_, ?_, ?_⟩
  · rw [keyr]
  · rw [keyr]
    simp
  · rw [keyr, hgetd]
    simp [lpush]
  · intro p' hp'
    rw [keyr]
    simp [queueOf_setQueueOf_ne _ _ hp']
  · intro e hmem2 m' hparse hid2
    rw [keyr] at hmem2
    simp only [failed_setQueueOf] at hmem2
    have he : e ∈ st.failedMessages ∧ e ≠ Stored.valid m := by
      have hf := List.mem_filter.mp hmem2
      refine ⟨hf.1, ?_⟩
      have hb := hf.2
      simpa using hb
    exact he.2 (huniq e he.1 m' hparse hid2)

def mW3 : MessageData := { mkEnqueued "w3" "idw3" "t0" .high with
  status := .failed, retryCount := some 1, completedTime := some "tc" }

def stW3 : EngineState := { initState with failedMessages := [.valid mW3] }

theorem retry_success_spec_witness :
    (retryFailedMessage stW3 "idw3").1 = .ok ()
    ∧ (retryFailedMessage stW3 "idw3").2.failedMessages =
        srem stW3.failedMessages (.valid mW3)
    ∧ queueOf (retryFailedMessage stW3 "idw3").2 mW3.priority =
        .valid { mW3 with
          retryCount := some (1 + 1),
          status := .pending,
          processingStartTime := none,
          completedTime := none } :: queueOf stW3 mW3.priority
    ∧ (∀ p', p' ≠ mW3.priority →
        queueOf (retryFailedMessage stW3 "idw3").2 p' = queueOf stW3 p')
    ∧ (∀ e ∈ (retryFailedMessage stW3 "idw3").2.failedMessages,
        ∀ m', parseMessageSafely e = some m' → m'.id ≠ "idw3") :=
  retry_success_spec stW3 "idw3" mW3 1 (by decide) (by decide) (by decide)
    (by decide) (by decide)

/-- C4 counterexample: a retry whose id is absent from the failed
collection and a retry whose message has exhausted its retry budget
produce the very same error value, so the two failure modes are not
two distinct typed errors. -/
def mR3 : MessageData := { mkEnqueued "rc" "idr" "t0" .normal with
  status := .failed, retryCount := some 3 }

def stR3 : EngineState := { initState with failedMessages := [.valid mR3] }

theorem retry_errors_not_distinct :
    Stored.valid mR3 ∈ stR3.failedMessages
    ∧ mR3.retryCount = some 3
    ∧ mR3.id = "idr"
    ∧ initState.failedMessages = []
    ∧ (retryFailedMessage stR3 "idr").1 = (retryFailedMessage initState "idr").1
    ∧ (retryFailedMessage stR3 "idr").1 =
        .error "Message idr not found in failed queue or max retries exceeded" := by
  decide

/-- C4 amended: retryFailedMessage fails whenever the failed collection
holds no entry with the requested id and retryCount below 3 — both when
the id is absent and when its retryCount has reached 3 — and in both
cases it raises the one shared error string, leaving the store
unchanged; the two failure causes are not distinguished. -/
theorem retry_error_conflated (st : EngineState) (mid : String)
    (h : ∀ e ∈ st.failedMessages, ∀ m, parseMessageSafely e = some m →
      m.id = mid → ¬ m.retryCount.getD 0 < 3) :
    retryFailedMessage st mid =
      (.error ("Message " ++ mid ++
        " not found in failed queue or max retries exceeded"), st) :=
  retryScan_not_found st mid st.failedMessages h

theorem retry_error_conflated_witness :
    retryFailedMessage stR3 "idr" =
      (.error ("Message " ++ "idr" ++
        " not found in failed queue or max retries exceeded"), stR3) :=
  retry_error_conflated stR3 "idr" (by decide)

/-! ### Complete scan lemmas -/

theorem completeScan_not_found (st : EngineState) (mid : String)
    (success : Bool) (now : String) :
    ∀ l : List Stored,
      (∀ e ∈ l, ∀ m, parseMessageSafely e = some m → m.id ≠ mid) →
      completeScan st mid success now l =
        (.error ("Message " ++ mid ++ " not found in processing queue"), st)
  | [], _ => rfl
  | e :: rest, h => by
    have hrest := completeScan_not_found st mid success now rest
      (fun e' he' => h e' (List.mem_cons_of_mem e he'))
    rcases hpe : parseMessageSafely e with _ | m
    · simp only [completeScan, hpe]
      exact hrest
    · have hneg : ¬ m.id = mid := h e (List.mem_cons_self e rest) m hpe
      simp only [completeScan, hpe, if_neg hneg]
      exact hrest

theorem completeScan_ok_of_mem (st : EngineState) (mid : String)
    (success : Bool) (now : String) :
    ∀ l : List Stored,
      (∃ e ∈ l, ∃ m, parseMessageSafely e = some m ∧ m.id = mid) →
      (completeScan st mid success now l).1 = .ok ()
  | [], hex => by
    rcases hex with ⟨e, he, _⟩
    exact absurd he (List.not_mem_nil e)
  | e :: rest, hex => by
    rcases hpe : parseMessageSafely e with _ | m
    · simp only [completeScan, hpe]
      apply completeScan_ok_of_mem
      rcases hex with ⟨e', he', m', hm', hid'⟩
      rcases List.mem_cons.mp he' with h | h
      · rw [h] at hm'
        rw [hpe] at hm'
        exact absurd hm' (by simp)
      · exact ⟨e', h, m', hm', hid'⟩
    · by_cases hid : m.id = mid
      · simp [completeScan, hpe, if_pos hid]
      · simp only [completeScan, hpe, if_neg hid]
        apply completeScan_ok_of_mem
        rcases hex with ⟨e', he', m', hm', hid'⟩
        rcases List.mem_cons.mp he' with h | h
        · rw [h] at hm'
          rw [hpe] at hm'
          injection hm' with hmm
          rw [hmm] at hid
          exact absurd hid' hid
        · exact ⟨e', h, m', hm', hid'⟩

theorem completeScan_found (st : EngineState) (mid : String) (success : Bool)
    (now : String) (m : MessageData) (hid : m.id = mid) :
    ∀ l : List Stored,
      Stored.valid m ∈ l →
      (∀ e ∈ l, ∀ m', parseMessageSafely e = some m' → m'.id = mid →
        e = Stored.valid m) →
      completeScan st mid success now l =
        (.ok (),
          if success then
            { st with
              processingMessages := srem st.processingMessages (.valid m),
              completedMessages := sadd st.completedMessages
                (.valid { m with status := .completed, completedTime := some now }) }
          else
            { st with
              processingMessages := srem st.processingMessages (.valid m),
              failedMessages := sadd st.failedMessages
                (.valid { m with status := .failed, completedTime := some now }) })
  | e :: rest, hmem, huniq => by
    by_cases hem : e = Stored.valid m
    · subst hem
      cases success
      · simp [completeScan, parseMessageSafely, if_pos hid]
      · simp [completeScan, parseMessageSafely, if_pos hid]
    · have hmem2 : Stored.valid m ∈ rest := by
        rcases List.mem_cons.mp hmem with h | h
        · exact absurd h.symm hem
        · exact h
      have hrest := completeScan_found st mid success now m hid rest hmem2
        (fun e' he' => huniq e' (List.mem_cons_of_mem e he'))
      rcases hpe : parseMessageSafely e with _ | m'
      · simp only [completeScan, hpe]
        exact hrest
      · have hneg : ¬ m'.id = mid := fun h =>
          hem (huniq e (List.mem_cons_self e rest) m' hpe h)
        simp only [completeScan, hpe, if_neg hneg]
        exact hrest

/-- C5: completeMessage fails with the not-found error exactly when no
entry of the processing collection parses to a message with the
requested id; otherwise it removes that message from processing and,
with status updated and completedTime set, inserts it into the
completed collection on success=true and into the failed collection on
success=false. -/
theorem complete_spec (st : EngineState) (mid : String) (success : Bool)
    (now : String) :
    ((completeMessage st mid success now).1 =
        .error ("Message " ++ mid ++ " not found in processing queue")
      ↔ ∀ e ∈ st.processingMessages, ∀ m, parseMessageSafely e = some m →
          m.id ≠ mid)
    ∧ (∀ m : MessageData, Stored.valid m ∈ st.processingMessages → m.id = mid →
        (∀ e ∈ st.processingMessages, ∀ m', parseMessageSafely e = some m' →
          m'.id = mid → e = Stored.valid m) →
        (completeMessage st mid success now).1 = .ok ()
        ∧ (completeMessage st mid success now).2.processingMessages =
            srem st.processingMessages (.valid m)
        ∧ ((completeMessage st mid success now).2.completedMessages =
            if success then
              sadd st.completedMessages
                (.valid { m with status := .completed, completedTime := some now })
            else st.completedMessages)
        ∧ ((completeMessage st mid success now).2.failedMessages =
            if success then st.failedMessages
            else sadd st.failedMessages
              (.valid { m with status := .failed, completedTime := some now }))) := by
  constructor
  · constructor
    · intro herr e he m hm hidm
      have hok := completeScan_ok_of_mem st mid success now
        st.processingMessages ⟨e, he, m, hm, hidm⟩
      have herr2 : (completeScan st mid success now st.processingMessages).1 =
          .error ("Message " ++ mid ++ " not found in processing queue") := herr
      rw [hok] at herr2
      exact absurd herr2 (by simp)
    · intro hnone
      have hkey := completeScan_not_found st mid success now
        st.processingMessages hnone
      show (completeScan st mid success now st.processingMessages).1 = _
      rw [hkey]
  · intro m hmem hidm huniq
    have hkey := completeScan_found st mid success now m hidm
      st.processingMessages hmem huniq
    have hkeyc : completeMessage st mid success now = _ := hkey
    cases success
    · rw [hkeyc]
      simp
    · rw [hkeyc]
      simp

def mW5 : MessageData := { mkEnqueued "w5" "idw5" "t0" .low with
  status := .processing, processingStartTime := some "ps" }

def stW5 : EngineState := { initState with processingMessages := [.valid mW5] }

theorem complete_spec_witness :
    (completeMessage stW5 "zz" true "ct").1 =
      .error ("Message " ++ "zz" ++ " not found in processing queue")
    ∧ (completeMessage stW5 "idw5" true "ct").1 = .ok ()
    ∧ (completeMessage stW5 "idw5" true "ct").2.completedMessages =
        sadd stW5.completedMessages
          (.valid { mW5 with status := .completed, completedTime := some "ct" })
    ∧ (completeMessage stW5 "idw5" false "ct2").2.failedMessages =
        sadd stW5.failedMessages
          (.valid { mW5 with status := .failed, completedTime := some "ct2" }) := by
  refine ⟨?_, ?_, ?_, ?_⟩
  · exact (complete_spec stW5 "zz" true "ct").1.mpr (by decide)
  · exact ((complete_spec stW5 "idw5" true "ct").2 mW5 (by decide) (by decide)
      (by decide)).1
  · have h := ((complete_spec stW5 "idw5" true "ct").2 mW5 (by decide) (by decide)
      (by decide)).2.2.1
    simpa using h
  · have h := ((complete_spec stW5 "idw5" false "ct2").2 mW5 (by decide) (by decide)
      (by decide)).2.2.2
    simpa using h

/-! ### Malformed-entry behaviour of the scan (C7) -/

def mC7 : MessageData := mkEnqueued "a" "ida" "t0" .urgent

def stC7 : EngineState := { initState with
  queueUrgent := [.valid mC7, .malformed "corrupt"] }

/-- C7 counterexample: the urgent tier holds a valid message behind a
malformed oldest entry and every other tier is empty; Dequeue pops and
discards the malformed entry but returns empty instead of the urgent
tier's remaining valid message. -/
theorem malformed_skip_cex :
    stC7.queueUrgent.getLast? = some (.malformed "corrupt")
    ∧ Stored.valid mC7 ∈ stC7.queueUrgent
    ∧ (getNextMessage stC7 "t1").1.message = none
    ∧ (getNextMessage stC7 "t1").2.queueUrgent = [.valid mC7] := by
  decide

/-- Tiers that the scan of getNextMessage visits after the given one. -/
def tiersAfter : MessagePriority → List MessagePriority
  | .urgent => [.high, .normal, .low]
  | .high => [.normal, .low]
  | .normal => [.low]
  | .low => []

/-- C7 amended: when the oldest entry of the highest-priority non-empty
tier (every tier before it in scan order being empty) is malformed,
Dequeue pops and permanently discards exactly that entry and continues
the scan with the tiers after it instead of rescanning the same tier —
for the low tier that remainder is empty, so the call returns empty;
the valid messages ahead of the malformed entry stay in their tier for
a later call and are not returned by this one. -/
theorem malformed_skips_to_next_tier (st : EngineState) (now s : String)
    (p : MessagePriority)
    (hbefore : ∀ p', tierRank p' < tierRank p → queueOf st p' = [])
    (hlast : (queueOf st p).getLast? = some (.malformed s)) :
    getNextMessage st now =
      (let r := scanTiers now (tiersAfter p)
        (setQueueOf st p (queueOf st p).dropLast)
       ({ message := r.1, queueStats := getQueueStats r.2 }, r.2))
    ∧ queueOf (getNextMessage st now).2 p = (queueOf st p).dropLast := by
  have key : scanTiers now [.urgent, .high, .normal, .low] st =
      scanTiers now (tiersAfter p) (setQueueOf st p (queueOf st p).dropLast) := by
    cases p with
    | urgent => exact scanTiers_hit_malformed now .urgent _ st s hlast
    | high =>
      rw [scanTiers_skip now .urgent _ st (hbefore .urgent (by decide))]
      exact scanTiers_hit_malformed now .high _ st s hlast
    | normal =>
      rw [scanTiers_skip now .urgent _ st (hbefore .urgent (by decide)),
        scanTiers_skip now .high _ st (hbefore .high (by decide))]
      exact scanTiers_hit_malformed now .normal _ st s hlast
    | low =>
      rw [scanTiers_skip now .urgent _ st (hbefore .urgent (by decide)),
        scanTiers_skip now .high _ st (hbefore .high (by decide)),
        scanTiers_skip now .normal _ st (hbefore .normal (by decide))]
      exact scanTiers_hit_malformed now .low _ st s hlast
  constructor
  · unfold getNextMessage
    rw [key]
  · have hgoal : queueOf (getNextMessage st now).2 p =
        queueOf (scanTiers now [.urgent, .high, .normal, .low] st).2 p := rfl
    rw [hgoal, key]
    have hnotin : p ∉ tiersAfter p := by cases p <;> decide
    rw [scanTiers_queues_untouched now (tiersAfter p)
      (setQueueOf st p (queueOf st p).dropLast) p hnotin]
    rw [queueOf_setQueueOf_same]

def stC7b : EngineState := { initState with
  queueHigh := [.valid (mkEnqueued "h" "idh" "th" .high), .malformed "bad"],
  queueLow := [.valid (mkEnqueued "l" "idl" "tl" .low)] }

theorem malformed_skips_to_next_tier_witness :
    getNextMessage stC7b "t2" =
      (let r := scanTiers "t2" (tiersAfter .high)
        (setQueueOf stC7b .high (queueOf stC7b .high).dropLast)
       ({ message := r.1, queueStats := getQueueStats r.2 }, r.2))
    ∧ queueOf (getNextMessage stC7b "t2").2 .high =
        (queueOf stC7b .high).dropLast :=
  malformed_skips_to_next_tier stC7b "t2" "bad" .high
    (by
      intro p' h'
      cases p' <;> (try rfl) <;> exact absurd h' (by decide))
    (by decide)

/-! ### Hash-set preservation lemmas (C6) -/

theorem sadd_subset {α : Type} [DecidableEq α] (s : List α) (v : α) :
    s ⊆ sadd s v := by
  intro x hx
  unfold sadd
  split
  · exact hx
  · exact List.mem_append_left _ hx

theorem mem_sadd {α : Type} [DecidableEq α] {s : List α} {v x : α} :
    x ∈ sadd s v ↔ x ∈ s ∨ x = v := by
  unfold sadd
  split
  · rename_i hv
    constructor
    · exact Or.inl
    · rintro (h | h)
      · exact h
      · rwa [h]
  · simp [List.mem_append]

theorem scanTiers_hashes (now : String) :
    ∀ (ps : List MessagePriority) (st : EngineState) (p : MessagePriority),
      hashesOf (scanTiers now ps st).2 p = hashesOf st p
  | [], _, _ => rfl
  | q :: ps, st, p => by
    unfold scanTiers
    match hq : rpop (queueOf st q) with
    | none =>
      simp only [hq]
      exact scanTiers_hashes now ps st p
    | some (e, l) =>
      simp only [hq]
      match he : parseMessageSafely e with
      | some m =>
        simp only [he]
        cases p <;> cases q <;> rfl
      | none =>
        simp only [he]
        rw [scanTiers_hashes now ps _ p, hashesOf_setQueueOf]

theorem completeScan_hashes (st : EngineState) (mid : String) (success : Bool)
    (now : String) :
    ∀ (l : List Stored) (p : MessagePriority),
      hashesOf (completeScan st mid success now l).2 p = hashesOf st p
  | [], _ => rfl
  | e :: rest, p => by
    rcases hpe : parseMessageSafely e with _ | m
    · simp only [completeScan, hpe]
      exact completeScan_hashes st mid success now rest p
    · by_cases hid : m.id = mid
      · cases success
        · simp only [completeScan, hpe, if_pos hid]
          cases p <;> rfl
        · simp only [completeScan, hpe, if_pos hid]
          cases p <;> rfl
      · simp only [completeScan, hpe, if_neg hid]
        exact completeScan_hashes st mid success now rest p

theorem retryScan_hashes (st : EngineState) (mid : String) :
    ∀ (l : List Stored) (p : MessagePriority),
      hashesOf (retryScan st mid l).2 p = hashesOf st p
  | [], _ => rfl
  | e :: rest, p => by
    rcases hpe : parseMessageSafely e with _ | m
    · simp only [retryScan, hpe]
      exact retryScan_hashes st mid rest p
    · by_cases hc : m.id = mid ∧ m.retryCount.getD 0 < 3
      · simp only [retryScan, hpe, if_pos hc]
        rw [hashesOf_setQueueOf]
        cases p <;> rfl
      · simp only [retryScan, hpe, if_neg hc]
        exact retryScan_hashes st mid rest p

theorem enqueueMessage_hashes_mono (st : EngineState) (dto : CreateMessageDto)
    (i t : String) (p : MessagePriority) :
    hashesOf st p ⊆ hashesOf (enqueueMessage st dto i t).2 p := by
  simp only [enqueueMessage, Option.getD_some]
  by_cases hdup : contentHash dto.content ∈ hashesOf st (dto.priority.getD .normal)
  · rw [if_pos hdup]
    exact fun x hx => hx
  · rw [if_neg hdup]
    by_cases hp : p = dto.priority.getD .normal
    · subst hp
      intro x hx
      simp only [hashesOf_setHashesOf_same, hashesOf_update_uniqueIds,
        hashesOf_setQueueOf]
      exact sadd_subset _ _ hx
    · intro x hx
      rw [hashesOf_setHashesOf_ne _ _ hp]
      simp only [hashesOf_update_uniqueIds, hashesOf_setQueueOf]
      exact hx

theorem applyOp_hashes_mono (st : EngineState) (o : QOp) (p : MessagePriority) :
    hashesOf st p ⊆ hashesOf (applyOp st o) p := by
  cases o with
  | enq dto i t => exact enqueueMessage_hashes_mono st dto i t p
  | deq now =>
    show hashesOf st p ⊆
      hashesOf (scanTiers now [.urgent, .high, .normal, .low] st).2 p
    rw [scanTiers_hashes]
    exact fun x hx => hx
  | compl i s now =>
    show hashesOf st p ⊆
      hashesOf (completeScan st i s now st.processingMessages).2 p
    rw [completeScan_hashes]
    exact fun x hx => hx
  | retryOp i =>
    show hashesOf st p ⊆ hashesOf (retryScan st i st.failedMessages).2 p
    rw [retryScan_hashes]
    exact fun x hx => hx
  | clearOp =>
    intro x hx
    cases p <;> simpa using hx

theorem applyOps_hashes_mono :
    ∀ (ops : List QOp) (st : EngineState) (p : MessagePriority),
      hashesOf st p ⊆ hashesOf (applyOps st ops) p
  | [], _, _ => fun _ hx => hx
  | o :: ops, st, p => fun _ hx =>
    applyOps_hashes_mono ops (applyOp st o) p (applyOp_hashes_mono st o p hx)

theorem retryScan_fst_hashes_independent (st : EngineState) (mid : String)
    (q : MessagePriority) (hs : List String) :
    ∀ l : List Stored,
      (retryScan (setHashesOf st q hs) mid l).1 = (retryScan st mid l).1
  | [] => rfl
  | e :: rest => by
    rcases hpe : parseMessageSafely e with _ | m
    · simp only [retryScan, hpe]
      exact retryScan_fst_hashes_independent st mid q hs rest
    · by_cases hc : m.id = mid ∧ m.retryCount.getD 0 < 3
      · simp only [retryScan, hpe, if_pos hc]
      · simp only [retryScan, hpe, if_neg hc]
        exact retryScan_fst_hashes_independent st mid q hs rest

/-- C6: a fingerprint present in a tier's deduplication index survives
any sequence of enqueue, dequeue, complete, retry and clear-completed
operations; enqueueing content with that fingerprint into the tier
still fails afterwards; retry does not consult the index at all (its
outcome is unchanged under arbitrary replacement of a hash set); and
only purgeAllQueues empties the index. -/
theorem fingerprint_permanent (st : EngineState) (p : MessagePriority)
    (c : String) (ops : List QOp) (id ts mid : String)
    (q : MessagePriority) (hs : List String)
    (hmem : contentHash c ∈ hashesOf st p) :
    contentHash c ∈ hashesOf (applyOps st ops) p
    ∧ (enqueueMessage (applyOps st ops) ⟨c, some p, none⟩ id ts).1 =
        .error "Duplicate message detected"
    ∧ (retryFailedMessage (setHashesOf st q hs) mid).1 =
        (retryFailedMessage st mid).1
    ∧ hashesOf (purgeAllQueues st) p = [] := by
  have hmem2 : contentHash c ∈ hashesOf (applyOps st ops) p :=
    applyOps_hashes_mono ops st p hmem
  refine ⟨hmem2, ?_, ?_, ?_⟩
  · simp only [enqueueMessage, Option.getD_some]
    rw [if_pos hmem2]
  · have key := retryScan_fst_hashes_independent st mid q hs st.failedMessages
    show (retryScan (setHashesOf st q hs) mid
      (setHashesOf st q hs).failedMessages).1 = _
    rw [failed_setHashesOf]
    exact key
  · cases p <;> rfl

def stC6 : EngineState := { initState with
  contentHashesNormal := [contentHash "c6"] }

theorem fingerprint_permanent_witness :
    contentHash "c6" ∈
      hashesOf (applyOps stC6 [.enq ⟨"other", some .normal, none⟩ "i2" "t2",
        .deq "t3", .clearOp]) .normal
    ∧ (enqueueMessage (applyOps stC6 [.enq ⟨"other", some .normal, none⟩ "i2" "t2",
        .deq "t3", .clearOp]) ⟨"c6", some .normal, none⟩ "i4" "t4").1 =
        .error "Duplicate message detected"
    ∧ (retryFailedMessage (setHashesOf stC6 .low ["zz"]) "mid").1 =
        (retryFailedMessage stC6 "mid").1
    ∧ hashesOf (purgeAllQueues stC6) .normal = [] :=
  fingerprint_permanent stC6 .normal "c6"
    [.enq ⟨"other", some .normal, none⟩ "i2" "t2", .deq "t3", .clearOp]
    "i4" "t4" "mid" .low ["zz"] (by decide)

/-! ### Batch enqueue and FIFO dequeue lemmas -/

theorem enqueueSeq_spec (p : MessagePriority) :
    ∀ (rs : List EnqueueReq) (st : EngineState),
      (rs.map (·.content)).Pairwise (· ≠ ·) →
      (∀ r ∈ rs, contentHash r.content ∉ hashesOf st p) →
      queueOf (enqueueSeq p st rs) p =
        (rs.map (fun r =>
          Stored.valid (mkEnqueued r.content r.reqId r.reqTime p))).reverse
          ++ queueOf st p
      ∧ (∀ p', p' ≠ p → queueOf (enqueueSeq p st rs) p' = queueOf st p')
  | [], st, _, _ => ⟨by simp [enqueueSeq], fun _ _ => rfl⟩
  | r :: rs, st, hdist, hfresh => by
    have hok := enqueueMessage_ok st r.content p r.reqId r.reqTime
      (hfresh r (List.mem_cons_self r rs))
    have hpair := List.pairwise_cons.mp hdist
    have hfresh2 : ∀ x ∈ rs, contentHash x.content ∉
        hashesOf (enqueueMessage st ⟨r.content, some p, none⟩ r.reqId r.reqTime).2 p := by
      intro x hx hmem
      rw [hok.2.2.2.1] at hmem
      rcases mem_sadd.mp hmem with h | h
      · exact hfresh x (List.mem_cons_of_mem r hx) h
      · have hxc : x.content = r.content := contentHash_injective h
        exact hpair.1 x.content (List.mem_map_of_mem (·.content) hx) hxc.symm
    have ih := enqueueSeq_spec p rs _ hpair.2 hfresh2
    have hstep : enqueueSeq p st (r :: rs) =
        enqueueSeq p (enqueueMessage st ⟨r.content, some p, none⟩ r.reqId r.reqTime).2
          rs := rfl
    constructor
    · rw [hstep, ih.1, hok.2.1]
      simp [List.append_assoc]
    · intro p' hp'
      rw [hstep, ih.2 p' hp', hok.2.2.1 p' hp']

theorem dequeueSeq_fifo (p : MessagePriority) :
    ∀ (ms : List MessageData) (ts : List String) (st : EngineState),
      ts.length = ms.length →
      queueOf st p = (ms.map Stored.valid).reverse →
      (∀ p', p' ≠ p → queueOf st p' = []) →
      (dequeueSeq st ts).map (Option.map (fun m => (m.id, m.content))) =
        ms.map (fun m => some (m.id, m.content))
  | [], [], _, _, _, _ => rfl
  | [], _ :: _, _, hlen, _, _ => by simp at hlen
  | _ :: _, [], _, hlen, _, _ => by simp at hlen
  | m0 :: ms, t :: ts, st, hlen, hq, hothers => by
    have hlast : (queueOf st p).getLast? = some (Stored.valid m0) := by
      rw [hq, List.getLast?_reverse]
      rfl
    have hbefore : ∀ p', tierRank p' < tierRank p → queueOf st p' = [] := by
      intro p' h'
      refine hothers p' ?_
      intro he
      rw [he] at h'
      omega
    have hstep := getNextMessage_first st p m0 t hlast hbefore
    have hq2 : queueOf (getNextMessage st t).2 p = (ms.map Stored.valid).reverse := by
      rw [hstep.2.1, hq]
      rw [List.map_cons, List.reverse_cons, List.dropLast_concat]
    have hothers2 : ∀ p', p' ≠ p → queueOf (getNextMessage st t).2 p' = [] := by
      intro p' hp'
      rw [hstep.2.2 p' hp']
      exact hothers p' hp'
    have ih := dequeueSeq_fifo p ms ts (getNextMessage st t).2
      (by simpa using hlen) hq2 hothers2
    show ((getNextMessage st t).1.message ::
        dequeueSeq (getNextMessage st t).2 ts).map
        (Option.map (fun m => (m.id, m.content))) = _
    rw [List.map_cons, hstep.1, ih]
    rfl

theorem validEntries_getLast {l : List Stored} (hv : validEntries l)
    (hne : l ≠ []) : ∃ m, l.getLast? = some (Stored.valid m) := by
  have hmem := List.getLast_mem hne
  have hp := hv (l.getLast hne) hmem
  rcases he : l.getLast hne with m | s
  · exact ⟨m, by rw [List.getLast?_eq_getLast l hne, he]⟩
  · rw [he] at hp
    simp [parseMessageSafely] at hp

/-- C1: in a store whose tier entries all parse, getNextMessage pops
the oldest entry of the first non-empty tier in urgent, high, normal,
low order and returns it marked processing; when all four tiers are
empty it returns empty together with a stats snapshot of the untouched
store; and enqueuing distinct contents into one tier of the empty store
and dequeuing that many times returns exactly those messages, in
enqueue order. -/
theorem dequeue_priority_fifo (st : EngineState) (now : String)
    (p : MessagePriority) (rs : List EnqueueReq) (ts : List String)
    (hv : allValid st)
    (hdist : (rs.map (·.content)).Pairwise (· ≠ ·))
    (hlen : ts.length = rs.length) :
    (st.queueUrgent ≠ [] → ∃ m, st.queueUrgent.getLast? = some (.valid m) ∧
      (getNextMessage st now).1.message = some (toProcessing m now))
    ∧ (st.queueUrgent = [] → st.queueHigh ≠ [] →
        ∃ m, st.queueHigh.getLast? = some (.valid m) ∧
          (getNextMessage st now).1.message = some (toProcessing m now))
    ∧ (st.queueUrgent = [] → st.queueHigh = [] → st.queueNormal ≠ [] →
        ∃ m, st.queueNormal.getLast? = some (.valid m) ∧
          (getNextMessage st now).1.message = some (toProcessing m now))
    ∧ (st.queueUrgent = [] → st.queueHigh = [] → st.queueNormal = [] →
        st.queueLow ≠ [] →
        ∃ m, st.queueLow.getLast? = some (.valid m) ∧
          (getNextMessage st now).1.message = some (toProcessing m now))
    ∧ (st.queueUrgent = [] → st.queueHigh = [] → st.queueNormal = [] →
        st.queueLow = [] →
        getNextMessage st now =
          ({ message := none, queueStats := getQueueStats st }, st))
    ∧ (dequeueSeq (enqueueSeq p initState rs) ts).map
        (Option.map (fun m => (m.id, m.content))) =
        rs.map (fun r => some (r.reqId, r.content)) := by
  obtain ⟨hvU, hvH, hvN, hvL⟩ := hv
  refine ⟨?_, ?_, ?_, ?_, ?_, ?_⟩
  · intro hne
    obtain ⟨m, hm⟩ := validEntries_getLast hvU hne
    refine ⟨m, hm, ?_⟩
    refine (getNextMessage_first st .urgent m now hm ?_).1
    intro p' h'
    cases p' <;> exact absurd h' (by decide)
  · intro hU hne
    obtain ⟨m, hm⟩ := validEntries_getLast hvH hne
    refine ⟨m, hm, ?_⟩
    refine (getNextMessage_first st .high m now hm ?_).1
    intro p' h'
    cases p' with
    | urgent => exact hU
    | high => exact absurd h' (by decide)
    | normal => exact absurd h' (by decide)
    | low => exact absurd h' (by decide)
  · intro hU hH hne
    obtain ⟨m, hm⟩ := validEntries_getLast hvN hne
    refine ⟨m, hm, ?_⟩
    refine (getNextMessage_first st .normal m now hm ?_).1
    intro p' h'
    cases p' with
    | urgent => exact hU
    | high => exact hH
    | normal => exact absurd h' (by decide)
    | low => exact absurd h' (by decide)
  · intro hU hH hN hne
    obtain ⟨m, hm⟩ := validEntries_getLast hvL hne
    refine ⟨m, hm, ?_⟩
    refine (getNextMessage_first st .low m now hm ?_).1
    intro p' h'
    cases p' with
    | urgent => exact hU
    | high => exact hH
    | normal => exact hN
    | low => exact absurd h' (by decide)
  · intro hU hH hN hL
    have hall : ∀ q ∈ ([.urgent, .high, .normal, .low] : List MessagePriority),
        queueOf st q = [] := by
      intro q hq
      simp only [List.mem_cons, List.not_mem_nil, or_false] at hq
      rcases hq with h | h | h | h <;> subst h <;> assumption
    have hkey := scanTiers_all_empty now [.urgent, .high, .normal, .low] st hall
    unfold getNextMessage
    rw [hkey]
  · have hes := enqueueSeq_spec p rs initState hdist (by
      intro r hr
      cases p <;> exact List.not_mem_nil _)
    have hq : queueOf (enqueueSeq p initState rs) p =
        ((rs.map (fun r => mkEnqueued r.content r.reqId r.reqTime p)).map
          Stored.valid).reverse := by
      rw [hes.1, List.map_map]
      cases p <;> simp [initState, queueOf]
    have hothers : ∀ p', p' ≠ p → queueOf (enqueueSeq p initState rs) p' = [] := by
      intro p' hp'
      rw [hes.2 p' hp']
      cases p' <;> rfl
    have hff := dequeueSeq_fifo p
      (rs.map (fun r => mkEnqueued r.content r.reqId r.reqTime p)) ts _
      (by simpa using hlen) hq hothers
    rw [hff, List.map_map]
    rfl

def rW1 : EnqueueReq := ⟨"c1", "id1", "t1"⟩

def rW2 : EnqueueReq := ⟨"c2", "id2", "t2"⟩

def stW1 : EngineState := { initState with
  queueUrgent := [.valid (mkEnqueued "u" "idu" "tu" .urgent)],
  queueLow := [.valid (mkEnqueued "l" "idl" "tl" .low)] }

theorem dequeue_priority_fifo_witness :
    (stW1.queueUrgent ≠ [] → ∃ m, stW1.queueUrgent.getLast? = some (.valid m) ∧
      (getNextMessage stW1 "n").1.message = some (toProcessing m "n"))
    ∧ (dequeueSeq (enqueueSeq .normal initState [rW1, rW2]) ["u1", "u2"]).map
        (Option.map (fun m => (m.id, m.content))) =
        [rW1, rW2].map (fun r => some (r.reqId, r.content)) := by
  have h := dequeue_priority_fifo stW1 "n" .normal [rW1, rW2] ["u1", "u2"]
    (by decide) (by decide) (by decide)
  exact ⟨h.1, h.2.2.2.2.2⟩

/-! ### Listing lemmas -/

theorem filterMap_parse_map_valid (ms : List MessageData) :
    (ms.map Stored.valid).filterMap parseMessageSafely = ms := by
  induction ms with
  | nil => rfl
  | cons m ms ih => simp [parseMessageSafely, ih]

theorem filterMap_parse_getLast (l : List Stored) :
    validEntries l →
      (l.filterMap parseMessageSafely).getLast? =
        l.getLast?.bind parseMessageSafely := by
  induction l using List.reverseRecOn with
  | nil => intro _; rfl
  | append_singleton l a ih =>
    intro hv
    have ha := hv a (by simp)
    rcases a with m | s
    · rw [List.filterMap_append]
      have h1 : List.filterMap parseMessageSafely [Stored.valid m] = [m] := rfl
      rw [h1, List.getLast?_concat, List.getLast?_concat]
      rfl
    · simp [parseMessageSafely] at ha

/-- C10: ListByPriority lists a tier newest-first, i.e. in reverse
admission order; ListAll concatenates the four tier listings in low,
normal, high, urgent order; both listings leave the store unchanged;
and when the scan reaches a tier whose entries all parse, the message
Dequeue returns is the last element of that tier's listing. -/
theorem listings_spec (st : EngineState) (p : MessagePriority) (t : String)
    (rs : List EnqueueReq) (m : MessageData)
    (hdist : (rs.map (·.content)).Pairwise (· ≠ ·))
    (hvalid : validEntries (queueOf st p))
    (hbefore : ∀ p', tierRank p' < tierRank p → queueOf st p' = [])
    (hlastm : (getMessagesByPriority st p).1.getLast? = some m) :
    (getAllMessages st).1 =
      (getMessagesByPriority st .low).1 ++ (getMessagesByPriority st .normal).1
        ++ (getMessagesByPriority st .high).1
        ++ (getMessagesByPriority st .urgent).1
    ∧ (getAllMessages st).2 = st
    ∧ (getMessagesByPriority st p).2 = st
    ∧ (getMessagesByPriority (enqueueSeq p initState rs) p).1 =
        (rs.map (fun r => mkEnqueued r.content r.reqId r.reqTime p)).reverse
    ∧ (getNextMessage st t).1.message = some (toProcessing m t) := by
  refine ⟨?_, rfl, rfl, ?_, ?_⟩
  · simp [getAllMessages, getMessagesByPriority, priorityValues, lrange,
      List.append_assoc]
  · have hes := enqueueSeq_spec p rs initState hdist (by
      intro r hr
      cases p <;> exact List.not_mem_nil _)
    show (lrange (queueOf (enqueueSeq p initState rs) p)).filterMap
      parseMessageSafely = _
    rw [show lrange (queueOf (enqueueSeq p initState rs) p) =
      queueOf (enqueueSeq p initState rs) p from rfl]
    rw [hes.1]
    have hinit : queueOf initState p = [] := by cases p <;> rfl
    rw [hinit, List.append_nil]
    have hmm : rs.map (fun r => Stored.valid (mkEnqueued r.content r.reqId r.reqTime p))
        = (rs.map (fun r => mkEnqueued r.content r.reqId r.reqTime p)).map
            Stored.valid := by
      rw [List.map_map]
      rfl
    rw [hmm, List.filterMap_reverse, filterMap_parse_map_valid]
  · have hql := filterMap_parse_getLast (queueOf st p) hvalid
    have hb : (queueOf st p).getLast?.bind parseMessageSafely = some m := by
      rw [← hql]
      exact hlastm
    rcases hq : (queueOf st p).getLast? with _ | e
    · rw [hq] at hb
      simp at hb
    · rw [hq] at hb
      rcases e with m' | s
      · have hmm : m' = m := by simpa [parseMessageSafely] using hb
        subst hmm
        exact (getNextMessage_first st p m' t hq hbefore).1
      · simp [parseMessageSafely] at hb

def mWa : MessageData := mkEnqueued "wa" "idwa" "ta" .high

def mWb : MessageData := mkEnqueued "wb" "idwb" "tb" .high

def stW10 : EngineState := { initState with
  queueHigh := [.valid mWb, .valid mWa],
  queueLow := [.valid (mkEnqueued "wl" "idwl" "tl" .low)] }

theorem listings_spec_witness :
    (getAllMessages stW10).1 =
      (getMessagesByPriority stW10 .low).1
        ++ (getMessagesByPriority stW10 .normal).1
        ++ (getMessagesByPriority stW10 .high).1
        ++ (getMessagesByPriority stW10 .urgent).1
    ∧ (getAllMessages stW10).2 = stW10
    ∧ (getMessagesByPriority stW10 .high).2 = stW10
    ∧ (getMessagesByPriority (enqueueSeq .high initState [rW1, rW2]) .high).1 =
        ([rW1, rW2].map (fun r =>
          mkEnqueued r.content r.reqId r.reqTime .high)).reverse
    ∧ (getNextMessage stW10 "t").1.message = some (toProcessing mWa "t") := by
  have h := listings_spec stW10 .high "t" [rW1, rW2] mWa
    (by decide) (by decide)
    (by intro p' h'; cases p' <;> (try rfl) <;> exact absurd h' (by decide))
    (by decide)
  exact h

end RedisMs
